import Mathlib

/-!
Verification of the SHL catalog pipeline
(`scripts/enrich_with_llm.py`, `scripts/scrape_shl_catalog.py`).

The Python code is shallowly embedded: dataframes become `List Record`,
network calls become oracle functions supplied as parameters, and the
side-effect trace (persisted snapshots, pacing pauses) is made explicit
in the run state.
-/

namespace SHL

/-! ## Record store (`scripts/enrich_with_llm.py`) -/

/-- A catalog row as seen after `pd.read_csv` plus the ensure-columns step
(lines 131-137): raw fields `name`, `description` and the seven enrichment
columns. A cell is `none` when it does not hold a string (e.g. a NaN cell),
`some s` when it holds the string `s`; a column freshly added by the
ensure-columns step holds `some ""` everywhere. -/
structure Record where
  name : String
  description : String
  skills_covered : Option String
  skill_domains : Option String
  assessment_category : Option String
  job_roles : Option String
  seniority_levels : Option String
  assessment_focus : Option String
  keywords : Option String
deriving DecidableEq

/-- Python's `s.strip()`: drop whitespace from both ends. -/
def pyStrip (s : String) : String :=
  String.mk (((s.toList.dropWhile Char.isWhitespace).reverse.dropWhile
    Char.isWhitespace).reverse)

/-- Python's `s.lower()`. -/
def pyLower (s : String) : String :=
  String.mk (s.toList.map Char.toLower)

/-- `isinstance(v, str) and v.strip()`: the cell holds a string that is
non-blank after stripping surrounding whitespace. -/
def nonblank : Option String → Bool
  | none => false
  | some s => !(pyStrip s).toList.isEmpty

/-- `is_row_enriched` (lines 104-110): the row counts as enriched when its
`skills_covered` and `assessment_category` cells are both non-blank strings. -/
def is_row_enriched (row : Record) : Bool :=
  nonblank row.skills_covered && nonblank row.assessment_category

/-- `pending_indices` (lines 141-144): positions whose row is not enriched,
in table order (`df.iterrows()` enumerates positions `0, 1, ...`). -/
def pending_indices (df : List Record) : List Nat :=
  (List.range df.length).filter fun i =>
    match df[i]? with
    | some row => !is_row_enriched row
    | none => false

/-- Slicing loop of `chunk_list`, driven by a fuel that bounds the number of
slices; the wrapper passes `lst.length`, which always suffices for a positive
`size`. -/
def chunkAux (size : Nat) : List α → Nat → List (List α)
  | _, 0 => []
  | [], _ => []
  | a :: t, fuel + 1 =>
      (a :: t).take size :: chunkAux size ((a :: t).drop size) fuel

/-- `chunk_list` (lines 112-114): the slices `lst[i:i+size]` for
`i = 0, size, 2*size, ...`. For `size = 0` Python's `range` raises; the
embedding returns `[]` there and every theorem assumes `0 < size`. -/
def chunk_list (lst : List α) : Nat → List (List α)
  | 0 => []
  | size + 1 => chunkAux (size + 1) lst lst.length

/-! ## Rate-limited client response and apply step -/

/-- A JSON value as `json.loads` can produce it (floats left aside: the
model's metadata values are strings, lists, objects, booleans, null and
integers). -/
inductive JsonVal where
  | null : JsonVal
  | bool : Bool → JsonVal
  | num : Int → JsonVal
  | str : String → JsonVal
  | arr : List JsonVal → JsonVal
  | obj : List (String × JsonVal) → JsonVal

/-- One parsed item of the model response that is a JSON object, abstracted
by the seven lookups lines 182-188 perform on it: `none` models an absent
key, `some v` a present value of any JSON type — including a malformed
(wrong-typed) one, or an explicit `null`, both of which `meta.get(key,
default)` returns as-is rather than defaulting. -/
structure MetaItem where
  skills_covered : Option JsonVal
  skill_domains : Option JsonVal
  assessment_category : Option JsonVal
  job_roles : Option JsonVal
  seniority_levels : Option JsonVal
  assessment_focus : Option JsonVal
  keywords : Option JsonVal

/-- One element of the parsed response list: a JSON object (a dict, on which
`meta.get` works), or any other JSON value, on which `meta.get` raises
`AttributeError`. -/
inductive ResponseItem where
  | dict : MetaItem → ResponseItem
  | nonDict : JsonVal → ResponseItem

/-- Escaping of one character as done by `json.dumps` for the characters
that occur in catalog text (backslash and double quote). -/
def jsonEscapeChar (c : Char) : String :=
  if c = '\\' then "\\\\" else if c = '"' then "\\\"" else String.singleton c

def jsonEscape (s : String) : String :=
  String.join (s.toList.map jsonEscapeChar)

mutual
/-- Python's `json.dumps` on the values of the model. -/
def jsonDumpsVal : JsonVal → String
  | .null => "null"
  | .bool true => "true"
  | .bool false => "false"
  | .num n => toString n
  | .str s => "\"" ++ jsonEscape s ++ "\""
  | .arr l => "[" ++ String.intercalate ", " (jsonDumpsArr l) ++ "]"
  | .obj kvs => "\x7b" ++ String.intercalate ", " (jsonDumpsObj kvs) ++ "\x7d"

def jsonDumpsArr : List JsonVal → List String
  | [] => []
  | v :: vs => jsonDumpsVal v :: jsonDumpsArr vs

def jsonDumpsObj : List (String × JsonVal) → List String
  | [] => []
  | (k, v) :: kvs =>
      ("\"" ++ jsonEscape k ++ "\": " ++ jsonDumpsVal v) :: jsonDumpsObj kvs
end

/-- `df.at[idx, col] = v` for a raw JSON value `v` (the two string fields at
lines 184 and 187): a string is stored as itself; any other value makes the
cell non-string (`none` in this model), which is all the downstream checks
(`isinstance(..., str)`) observe. -/
def storeCell : JsonVal → Option String
  | .str s => some s
  | _ => none

/-- Lines 182-188: write one response item into a row. `meta.get(key,
default)` is `Option.getD`; the five list-expected fields go through
`json.dumps` of whatever value is present (the empty list only when the key
is absent); the two string fields are stored verbatim — no defaulting of
present-but-malformed values and no vocabulary check anywhere. -/
def applyMeta (row : Record) (meta : MetaItem) : Record :=
  { row with
    skills_covered := some (jsonDumpsVal (meta.skills_covered.getD (.arr [])))
    skill_domains := some (jsonDumpsVal (meta.skill_domains.getD (.arr [])))
    assessment_category := storeCell (meta.assessment_category.getD (.str ""))
    job_roles := some (jsonDumpsVal (meta.job_roles.getD (.arr [])))
    seniority_levels := some (jsonDumpsVal (meta.seniority_levels.getD (.arr [])))
    assessment_focus := storeCell (meta.assessment_focus.getD (.str ""))
    keywords := some (jsonDumpsVal (meta.keywords.getD (.arr []))) }

/-- `df.at[idx, ...] = ...` for one zipped `(idx, meta)` pair. -/
def applyOne (df : List Record) (idx : Nat) (meta : MetaItem) : List Record :=
  match df[idx]? with
  | none => df
  | some row => df.set idx (applyMeta row meta)

/-- Line 181 over dict items only: `for idx, meta in zip(batch_idxs, data)`. -/
def applyBatch (df : List Record) (idxs : List Nat) (data : List MetaItem) : List Record :=
  (idxs.zip data).foldl (fun d p => applyOne d p.1 p.2) df

/-- The zip loop at lines 181-188 over arbitrary items: a dict item is
applied; a non-dict item raises `AttributeError` at its first `meta.get`,
before any write for that item, so the loop stops there — earlier items stay
written in the in-memory table. Returns the table and whether the loop
finished. -/
def applyLoop : List Record → List (Nat × ResponseItem) → List Record × Bool
  | df, [] => (df, true)
  | df, (idx, ResponseItem.dict m) :: rest => applyLoop (applyOne df idx m) rest
  | df, (_, ResponseItem.nonDict _) :: _ => (df, false)

/-- Outcome of one `client.chat.completions.create` followed by `json.loads`
(lines 166-176): `err` models any exception raised before the length check
(transport error, timeout, non-JSON response); `ok data` a successfully
parsed JSON list whose items may or may not be objects. -/
inductive LLMResult where
  | err : LLMResult
  | ok : List ResponseItem → LLMResult

def BATCH_SIZE : Nat := 3

def COOLDOWN_EVERY : Nat := 10

/-- The category vocabulary fixed by the prompt (line 93); the apply step
never consults it. -/
def ALLOWED_CATEGORIES : List String := ["Technical", "Behavioral", "Cognitive", "Mixed"]

/-- Lines 165-194 for one batch: on an exception or on a length mismatch
(`raise ValueError` at line 179, caught at line 193) nothing is written and
nothing persisted; otherwise the zip loop runs — if it finishes, the table is
saved (`df.to_csv`, line 190); if a non-dict item raises mid-loop, the
exception is caught at line 193 and nothing is saved, but the items already
applied remain in the in-memory table. Returns the new table and the
snapshot written, if any. -/
def processBatch (df : List Record) (idxs : List Nat) (resp : LLMResult) :
    List Record × Option (List Record) :=
  match resp with
  | .err => (df, none)
  | .ok data =>
      if data.length = idxs.length then
        match applyLoop df (idxs.zip data) with
        | (df2, true) => (df2, some df2)
        | (df2, false) => (df2, none)
      else (df, none)

/-- The pacing pause taken after a batch (lines 199-203). -/
inductive Pause where
  | shortDelay : Pause
  | cooldown : Pause
deriving DecidableEq

/-- Observable state of one enrichment run: the in-memory table, the trace of
`df.to_csv` calls tagged with the batch number that produced them, the trace
of pacing pauses, and the batch counter. -/
structure RunState where
  df : List Record
  persists : List (Nat × List Record)
  pauses : List Pause
  batches_done : Nat
deriving DecidableEq

/-- Lines 199-203: the pause taken when the counter has just been stepped
from `k` to `k + 1`. -/
def pauseAt (k : Nat) : Pause :=
  if (k + 1) % COOLDOWN_EVERY = 0 then Pause.cooldown else Pause.shortDelay

/-- One iteration of the loop at lines 150-203. `responses k` is the outcome
of the network call made while `batches_done = k`. -/
def stepBatch (responses : Nat → LLMResult) (st : RunState) (batchIdxs : List Nat) :
    RunState :=
  let res := processBatch st.df batchIdxs (responses st.batches_done)
  { df := res.1
    persists := st.persists ++ (match res.2 with
      | some snap => [(st.batches_done, snap)]
      | none => [])
    pauses := st.pauses ++ [pauseAt st.batches_done]
    batches_done := st.batches_done + 1 }

def runLoop (responses : Nat → LLMResult) :
    List (List Nat) → RunState → RunState
  | [], st => st
  | b :: bs, st => runLoop responses bs (stepBatch responses st b)

/-- `enrich_catalog_data` (lines 118-208) after the table has been loaded:
computes the pending indices once, chunks them, and drives the batch loop. -/
def enrich_catalog_data (df : List Record) (responses : Nat → LLMResult) : RunState :=
  runLoop responses (chunk_list (pending_indices df) BATCH_SIZE)
    { df := df, persists := [], pauses := [], batches_done := 0 }

/-- The batch fails: exception before the length check, or wrong item count. -/
def failsOn (resp : LLMResult) (idxs : List Nat) : Prop :=
  resp = .err ∨ ∃ data, resp = .ok data ∧ data.length ≠ idxs.length

/-! ## Helper lemmas: `chunk_list` -/

lemma chunkAux_fuel_irrel (size : Nat) (hs : 0 < size) :
    ∀ (n fuel : Nat) (l : List α), l.length ≤ fuel → fuel ≤ n →
      chunkAux size l fuel = chunkAux size l l.length := by
  intro n
  induction n with
  | zero =>
      intro fuel l h1 h2
      have hf : fuel = 0 := by omega
      subst hf
      have hl : l = [] := List.eq_nil_of_length_eq_zero (by omega)
      subst hl
      rfl
  | succ n ih =>
      intro fuel l h1 h2
      cases l with
      | nil => cases fuel <;> rfl
      | cons a t =>
          cases fuel with
          | zero => simp at h1
          | succ fuel =>
              show (a :: t).take size :: chunkAux size ((a :: t).drop size) fuel =
                (a :: t).take size :: chunkAux size ((a :: t).drop size) t.length
              have hd : ((a :: t).drop size).length ≤ t.length := by
                simp only [List.length_drop, List.length_cons]
                omega
              have h1' : t.length ≤ fuel := by
                simp only [List.length_cons] at h1
                omega
              congr 1
              rw [ih fuel ((a :: t).drop size) (by omega) (by omega),
                ih t.length ((a :: t).drop size) hd (by omega)]

lemma chunk_list_nil (s : Nat) : chunk_list ([] : List α) s = [] := by
  cases s <;> rfl

lemma chunk_list_eq_cons {l : List α} {s : Nat} (hs : 0 < s) (hl : l ≠ []) :
    chunk_list l s = l.take s :: chunk_list (l.drop s) s := by
  cases s with
  | zero => exact absurd hs (by omega)
  | succ k =>
      cases l with
      | nil => exact absurd rfl hl
      | cons a t =>
          show (a :: t).take (k + 1) ::
              chunkAux (k + 1) ((a :: t).drop (k + 1)) t.length =
            (a :: t).take (k + 1) ::
              chunkAux (k + 1) ((a :: t).drop (k + 1)) ((a :: t).drop (k + 1)).length
          have hd : ((a :: t).drop (k + 1)).length ≤ t.length := by
            simp only [List.length_drop, List.length_cons]
            omega
          congr 1
          exact chunkAux_fuel_irrel (k + 1) (by omega) t.length t.length _ hd le_rfl

lemma chunk_list_flatten_aux (s : Nat) (hs : 0 < s) :
    ∀ (n : Nat) (l : List α), l.length ≤ n → (chunk_list l s).flatten = l := by
  intro n
  induction n with
  | zero =>
    intro l hl
    have h0 : l = [] := List.eq_nil_of_length_eq_zero (Nat.le_zero.mp hl)
    subst h0
    simp [chunk_list_nil]
  | succ n ih =>
    intro l hl
    rcases eq_or_ne l [] with h | h
    · subst h; simp [chunk_list_nil]
    · have hpos : 0 < l.length := List.length_pos.mpr h
      rw [chunk_list_eq_cons hs h, List.flatten_cons,
        ih (l.drop s) (by simp only [List.length_drop]; omega),
        List.take_append_drop]

lemma chunk_list_flatten (l : List α) (s : Nat) (hs : 0 < s) :
    (chunk_list l s).flatten = l :=
  chunk_list_flatten_aux s hs l.length l le_rfl

lemma chunk_list_length_aux (s : Nat) (hs : 0 < s) :
    ∀ (n : Nat) (l : List α), l.length ≤ n →
      (chunk_list l s).length = (l.length + s - 1) / s := by
  intro n
  induction n with
  | zero =>
    intro l hl
    have h0 : l = [] := List.eq_nil_of_length_eq_zero (Nat.le_zero.mp hl)
    subst h0
    rw [chunk_list_nil]
    simp only [List.length_nil, Nat.zero_add]
    exact (Nat.div_eq_of_lt (by omega)).symm
  | succ n ih =>
    intro l hl
    rcases eq_or_ne l [] with h | h
    · subst h
      rw [chunk_list_nil]
      simp only [List.length_nil, Nat.zero_add]
      exact (Nat.div_eq_of_lt (by omega)).symm
    · have hpos : 0 < l.length := List.length_pos.mpr h
      rw [chunk_list_eq_cons hs h, List.length_cons,
        ih (l.drop s) (by simp only [List.length_drop]; omega)]
      simp only [List.length_drop]
      by_cases hle : l.length ≤ s
      · have h0 : l.length - s = 0 := by omega
        rw [h0, Nat.div_eq_of_lt (show 0 + s - 1 < s by omega),
          Nat.div_eq_of_lt_le (show 1 * s ≤ l.length + s - 1 by omega)
            (show l.length + s - 1 < (1 + 1) * s by omega)]
      · have e1 : l.length - s + s - 1 = l.length - 1 := by omega
        have e2 : l.length + s - 1 = (l.length - 1) + s := by omega
        rw [e1, e2, Nat.add_div_right _ hs]

lemma chunk_list_length (l : List α) (s : Nat) (hs : 0 < s) :
    (chunk_list l s).length = (l.length + s - 1) / s :=
  chunk_list_length_aux s hs l.length l le_rfl

lemma chunk_list_dropLast_aux (s : Nat) (hs : 0 < s) :
    ∀ (n : Nat) (l : List α), l.length ≤ n →
      ∀ g ∈ (chunk_list l s).dropLast, g.length = s := by
  intro n
  induction n with
  | zero =>
    intro l hl
    have h0 : l = [] := List.eq_nil_of_length_eq_zero (Nat.le_zero.mp hl)
    subst h0
    simp [chunk_list_nil]
  | succ n ih =>
    intro l hl
    rcases eq_or_ne l [] with h | h
    · subst h; simp [chunk_list_nil]
    · have hpos : 0 < l.length := List.length_pos.mpr h
      rw [chunk_list_eq_cons hs h]
      by_cases hd : l.drop s = []
      · rw [hd, chunk_list_nil]
        simp
      · have hne : chunk_list (l.drop s) s ≠ [] := by
          rw [chunk_list_eq_cons hs hd]
          exact List.cons_ne_nil _ _
        rw [List.dropLast_cons_of_ne_nil hne]
        intro g hg
        rcases List.mem_cons.mp hg with hg | hg
        · subst hg
          have hlen : 0 < (l.drop s).length := List.length_pos.mpr hd
          simp only [List.length_drop] at hlen
          rw [List.length_take, Nat.min_eq_left (by omega)]
        · exact ih (l.drop s) (by simp only [List.length_drop]; omega) g hg

lemma chunk_list_dropLast (l : List α) (s : Nat) (hs : 0 < s) :
    ∀ g ∈ (chunk_list l s).dropLast, g.length = s :=
  chunk_list_dropLast_aux s hs l.length l le_rfl

lemma chunk_list_getLast_aux (s : Nat) (hs : 0 < s) :
    ∀ (n : Nat) (l : List α), l.length ≤ n →
      ∀ g ∈ (chunk_list l s).getLast?,
        g.length = if l.length % s = 0 then s else l.length % s := by
  intro n
  induction n with
  | zero =>
    intro l hl
    have h0 : l = [] := List.eq_nil_of_length_eq_zero (Nat.le_zero.mp hl)
    subst h0
    simp [chunk_list_nil]
  | succ n ih =>
    intro l hl
    rcases eq_or_ne l [] with h | h
    · subst h; simp [chunk_list_nil]
    · have hpos : 0 < l.length := List.length_pos.mpr h
      rw [chunk_list_eq_cons hs h]
      by_cases hd : l.drop s = []
      · rw [hd, chunk_list_nil]
        intro g hg
        have hle : l.length ≤ s := by
          have h1 := congrArg List.length hd
          simp only [List.length_drop, List.length_nil] at h1
          omega
        have hg2 : List.take s l = g := by
          simpa using hg
        subst hg2
        rw [List.length_take, Nat.min_eq_right hle]
        by_cases he : l.length = s
        · rw [he]; simp
        · rw [Nat.mod_eq_of_lt (by omega), if_neg (by omega)]
      · have hne : chunk_list (l.drop s) s ≠ [] := by
          rw [chunk_list_eq_cons hs hd]
          exact List.cons_ne_nil _ _
        have hlen : 0 < (l.drop s).length := List.length_pos.mpr hd
        simp only [List.length_drop] at hlen
        obtain ⟨b, bs, hbs⟩ := List.exists_cons_of_ne_nil hne
        rw [hbs, List.getLast?_cons_cons, ← hbs]
        intro g hg
        have hrec := ih (l.drop s) (by simp only [List.length_drop]; omega) g hg
        simp only [List.length_drop] at hrec
        rwa [← Nat.mod_eq_sub_mod (by omega)] at hrec

lemma chunk_list_getLast (l : List α) (s : Nat) (hs : 0 < s) :
    ∀ g ∈ (chunk_list l s).getLast?,
      g.length = if l.length % s = 0 then s else l.length % s :=
  chunk_list_getLast_aux s hs l.length l le_rfl

/-! ## Helper lemmas: pending indices -/

lemma mem_pending_indices {df : List Record} {i : Nat} :
    i ∈ pending_indices df ↔
      ∃ row, df[i]? = some row ∧ is_row_enriched row = false := by
  unfold pending_indices
  rw [List.mem_filter, List.mem_range]
  constructor
  · rintro ⟨hi, hp⟩
    cases hrow : df[i]? with
    | some row =>
        refine ⟨row, rfl, ?_⟩
        rw [hrow] at hp
        simpa using hp
    | none =>
        rw [hrow] at hp
        simp at hp
  · rintro ⟨row, hrow, hen⟩
    have hi : i < df.length := by
      by_contra hge
      rw [List.getElem?_eq_none (by omega)] at hrow
      exact Option.noConfusion hrow
    refine ⟨hi, ?_⟩
    rw [hrow]
    simp [hen]

lemma pending_indices_nodup (df : List Record) : (pending_indices df).Nodup :=
  List.Nodup.filter _ (List.nodup_range _)

lemma pending_indices_eq_nil {df : List Record}
    (h : ∀ row ∈ df, is_row_enriched row = true) : pending_indices df = [] := by
  unfold pending_indices
  rw [List.filter_eq_nil_iff]
  intro i hi
  cases hrow : df[i]? with
  | some row =>
      have hmem : row ∈ df := List.getElem?_mem hrow
      simp [h row hmem]
  | none => simp

/-! ## Helper lemmas: the apply step -/

lemma applyOne_getElem?_ne (df : List Record) (j idx : Nat) (m : MetaItem)
    (h : idx ≠ j) : (applyOne df j m)[idx]? = df[idx]? := by
  unfold applyOne
  cases hrow : df[j]? with
  | none => rfl
  | some row => exact List.getElem?_set_ne (Ne.symm h)

lemma foldl_applyOne_getElem?_not_mem (idx : Nat) :
    ∀ (ps : List (Nat × MetaItem)) (df : List Record),
      (∀ p ∈ ps, p.1 ≠ idx) →
      (ps.foldl (fun d p => applyOne d p.1 p.2) df)[idx]? = df[idx]? := by
  intro ps
  induction ps with
  | nil => intro df _; rfl
  | cons p ps ih =>
    intro df h
    rw [List.foldl_cons, ih _ (fun q hq => h q (List.mem_cons_of_mem _ hq)),
      applyOne_getElem?_ne _ _ _ _ (Ne.symm (h p (List.mem_cons_self _ _)))]

lemma applyBatch_getElem?_not_mem (df : List Record) (idxs : List Nat)
    (data : List MetaItem) (idx : Nat) (h : idx ∉ idxs) :
    (applyBatch df idxs data)[idx]? = df[idx]? := by
  unfold applyBatch
  refine foldl_applyOne_getElem?_not_mem idx _ df ?_
  rintro ⟨a, b⟩ hp heq
  exact h (heq ▸ (List.of_mem_zip hp).1)

lemma applyLoop_getElem?_not_mem (idx : Nat) :
    ∀ (ps : List (Nat × ResponseItem)) (df : List Record),
      (∀ p ∈ ps, p.1 ≠ idx) → (applyLoop df ps).1[idx]? = df[idx]? := by
  intro ps
  induction ps with
  | nil => intro df _; rfl
  | cons p ps ih =>
      intro df h
      rcases p with ⟨j, item⟩
      cases item with
      | dict m =>
          show (applyLoop (applyOne df j m) ps).1[idx]? = df[idx]?
          rw [ih _ (fun q hq => h q (List.mem_cons_of_mem _ hq))]
          exact applyOne_getElem?_ne _ _ _ _
            (Ne.symm (h (j, ResponseItem.dict m) (List.mem_cons_self _ _)))
      | nonDict v => rfl

/-- The zip loop over a response whose items are all dicts is the plain
per-item fold, and finishes. -/
lemma applyLoop_dicts :
    ∀ (ms : List MetaItem) (idxs : List Nat) (df : List Record),
      applyLoop df (idxs.zip (ms.map ResponseItem.dict)) =
        (applyBatch df idxs ms, true) := by
  intro ms
  induction ms with
  | nil =>
      intro idxs df
      show applyLoop df (idxs.zip []) = (applyBatch df idxs [], true)
      rw [List.zip_nil_right]
      show (df, true) = (applyBatch df idxs [], true)
      unfold applyBatch
      rw [List.zip_nil_right]
      rfl
  | cons m ms ih =>
      intro idxs df
      cases idxs with
      | nil => rfl
      | cons i idxs =>
          show applyLoop (applyOne df i m) (idxs.zip (ms.map ResponseItem.dict)) =
            (applyBatch df (i :: idxs) (m :: ms), true)
          rw [ih idxs (applyOne df i m)]
          rfl

/-- The zip loop over a correct-length response whose first non-dict item
follows `pre` dict items raises there: the loop reports failure. -/
lemma applyLoop_nonDict_false :
    ∀ (pre : List MetaItem) (idxs : List Nat) (df : List Record) (v : JsonVal)
      (post : List ResponseItem),
      idxs.length =
        (pre.map ResponseItem.dict ++ ResponseItem.nonDict v :: post).length →
      (applyLoop df (idxs.zip
        (pre.map ResponseItem.dict ++ ResponseItem.nonDict v :: post))).2 =
        false := by
  intro pre
  induction pre with
  | nil =>
      intro idxs df v post h
      cases idxs with
      | nil => simp at h
      | cons i idxs => rfl
  | cons m pre ih =>
      intro idxs df v post h
      cases idxs with
      | nil => simp at h
      | cons i idxs =>
          show (applyLoop (applyOne df i m) (idxs.zip
            (pre.map ResponseItem.dict ++ ResponseItem.nonDict v :: post))).2 =
            false
          refine ih idxs (applyOne df i m) v post ?_
          simp only [List.map_cons, List.cons_append, List.length_cons] at h
          omega

lemma processBatch_of_failsOn {df : List Record} {idxs : List Nat}
    {resp : LLMResult} (h : failsOn resp idxs) :
    processBatch df idxs resp = (df, none) := by
  rcases h with h | ⟨data, hd, hlen⟩
  · subst h; rfl
  · subst hd
    simp only [processBatch]
    rw [if_neg hlen]

/-! ## Helper lemmas: the batch loop -/

lemma runLoop_batches_done (responses : Nat → LLMResult) :
    ∀ (bs : List (List Nat)) (st : RunState),
      (runLoop responses bs st).batches_done = st.batches_done + bs.length := by
  intro bs
  induction bs with
  | nil => intro st; simp [runLoop]
  | cons b bs ih =>
    intro st
    rw [runLoop, ih]
    show (st.batches_done + 1) + bs.length = st.batches_done + (b :: bs).length
    simp only [List.length_cons]
    omega

lemma runLoop_pauses (responses : Nat → LLMResult) :
    ∀ (bs : List (List Nat)) (st : RunState),
      (runLoop responses bs st).pauses =
        st.pauses ++ (List.range bs.length).map
          (fun j => pauseAt (st.batches_done + j)) := by
  intro bs
  induction bs with
  | nil => intro st; simp [runLoop]
  | cons b bs ih =>
    intro st
    rw [runLoop, ih]
    show (st.pauses ++ [pauseAt st.batches_done]) ++
        (List.range bs.length).map (fun j => pauseAt (st.batches_done + 1 + j)) =
      st.pauses ++ (List.range (bs.length + 1)).map
        (fun j => pauseAt (st.batches_done + j))
    have hfe : ((fun j => pauseAt (st.batches_done + j)) ∘ Nat.succ) =
        fun j => pauseAt (st.batches_done + 1 + j) := by
      funext j
      simp only [Function.comp_apply]
      congr 1
      omega
    rw [List.range_succ_eq_map, List.map_cons, List.map_map, hfe,
      List.append_assoc, List.singleton_append]
    simp

lemma runLoop_df_getElem? (responses : Nat → LLMResult) (idx : Nat) :
    ∀ (bs : List (List Nat)) (st : RunState),
      (∀ (j : Nat) (hj : j < bs.length), idx ∈ bs[j] →
          failsOn (responses (st.batches_done + j)) bs[j]) →
      (runLoop responses bs st).df[idx]? = st.df[idx]? := by
  intro bs
  induction bs with
  | nil => intro st _; rfl
  | cons b bs ih =>
    intro st h
    rw [runLoop]
    have htail : ∀ (j : Nat) (hj : j < bs.length), idx ∈ bs[j] →
        failsOn (responses ((stepBatch responses st b).batches_done + j)) bs[j] := by
      intro j hj hmem
      have hh := h (j + 1) (by simpa using Nat.succ_lt_succ hj)
        (by simpa using hmem)
      have hb : (st.batches_done + (j + 1)) =
          (stepBatch responses st b).batches_done + j := by
        show st.batches_done + (j + 1) = (st.batches_done + 1) + j
        omega
      rw [hb] at hh
      simpa using hh
    rw [ih (stepBatch responses st b) htail]
    by_cases hmem : idx ∈ b
    · have hfail := h 0 (by simp) (by simpa using hmem)
      rw [Nat.add_zero] at hfail
      show (processBatch st.df b (responses st.batches_done)).1[idx]? = st.df[idx]?
      rw [processBatch_of_failsOn (by simpa using hfail)]
    · show (processBatch st.df b (responses st.batches_done)).1[idx]? = st.df[idx]?
      cases hresp : responses st.batches_done with
      | err => rfl
      | ok data =>
        simp only [processBatch]
        by_cases hlen : data.length = b.length
        · rw [if_pos hlen]
          have hpres : (applyLoop st.df (b.zip data)).1[idx]? = st.df[idx]? := by
            apply applyLoop_getElem?_not_mem
            rintro ⟨a2, it⟩ hp heq
            exact hmem (heq ▸ (List.of_mem_zip hp).1)
          rcases hres : applyLoop st.df (b.zip data) with ⟨df2, flag⟩
          rw [hres] at hpres
          cases flag <;> simpa using hpres
        · rw [if_neg hlen]

lemma runLoop_persists_mem (responses : Nat → LLMResult) :
    ∀ (bs : List (List Nat)) (st : RunState) (p : Nat × List Record),
      p ∈ (runLoop responses bs st).persists →
      p ∈ st.persists ∨ ∃ (j : Nat) (hj : j < bs.length),
        p.1 = st.batches_done + j ∧
        ∃ data, responses (st.batches_done + j) = .ok data ∧
          data.length = bs[j].length := by
  intro bs
  induction bs with
  | nil => intro st p hp; exact Or.inl hp
  | cons b bs ih =>
    intro st p hp
    rw [runLoop] at hp
    rcases ih _ p hp with h | ⟨j, hj, hnum, data, hresp, hlen⟩
    · have h2 : p ∈ st.persists ++
          (match (processBatch st.df b (responses st.batches_done)).2 with
            | some snap => [(st.batches_done, snap)]
            | none => []) := h
      rcases List.mem_append.mp h2 with h1 | h1
      · exact Or.inl h1
      · right
        have hsucc : ∃ data, responses st.batches_done = .ok data ∧
            data.length = b.length ∧ p.1 = st.batches_done := by
          cases hresp : responses st.batches_done with
          | err =>
              rw [hresp] at h1
              simp [processBatch] at h1
          | ok data =>
              rw [hresp] at h1
              simp only [processBatch] at h1
              by_cases hlen : data.length = b.length
              · rw [if_pos hlen] at h1
                rcases hres : applyLoop st.df (b.zip data) with ⟨df2, flag⟩
                rw [hres] at h1
                cases flag with
                | true =>
                    simp only [List.mem_singleton] at h1
                    exact ⟨data, rfl, hlen, by rw [h1]⟩
                | false => simp at h1
              · rw [if_neg hlen] at h1
                simp at h1
        obtain ⟨data, hresp, hlen, hp1⟩ := hsucc
        refine ⟨0, by simp, by simpa using hp1, data, ?_, ?_⟩
        · rw [Nat.add_zero]; exact hresp
        · simpa using hlen
    · right
      have hb : (stepBatch responses st b).batches_done = st.batches_done + 1 := rfl
      rw [hb] at hnum hresp
      refine ⟨j + 1, by simpa using Nat.succ_lt_succ hj, ?_, data, ?_, ?_⟩
      · rw [hnum]; omega
      · rw [show st.batches_done + (j + 1) = st.batches_done + 1 + j by omega]
        exact hresp
      · simpa using hlen

/-- Pieces of a chunking of a duplicate-free list are pairwise disjoint. -/
lemma chunk_list_pairwise_disjoint (l : List Nat) (s : Nat) (hs : 0 < s)
    (hl : l.Nodup) : (chunk_list l s).Pairwise List.Disjoint := by
  have h := chunk_list_flatten l s hs
  have h2 : (chunk_list l s).flatten.Nodup := by rw [h]; exact hl
  exact (List.nodup_flatten.mp h2).2

lemma countP_mem_le_one (idx : Nat) :
    ∀ (bs : List (List Nat)), bs.Pairwise List.Disjoint →
      bs.countP (fun b => decide (idx ∈ b)) ≤ 1 := by
  intro bs
  induction bs with
  | nil => intro _; simp
  | cons b bs ih =>
    intro h
    rw [List.countP_cons]
    by_cases hmem : idx ∈ b
    · have h0 : bs.countP (fun b2 => decide (idx ∈ b2)) = 0 := by
        rw [List.countP_eq_zero]
        intro b2 hb2
        simp only [decide_eq_true_eq]
        intro hmem2
        exact (List.pairwise_cons.mp h).1 b2 hb2 hmem hmem2
      simp [hmem, h0]
    · have h1 := ih (List.pairwise_cons.mp h).2
      simpa [hmem] using h1

/-! ## Retrieval coordinator (`scripts/scrape_shl_catalog.py`) -/

def MAX_RETRIES : Nat := 3

/-- Auxiliary for Python's `needle in hay` on strings. -/
def infixAux (needle : List Char) : List Char → Bool
  | [] => needle.isEmpty
  | c :: t => List.isPrefixOf needle (c :: t) || infixAux needle t

/-- Python's `needle in hay` substring test. -/
def containsSub (needle hay : String) : Bool :=
  infixAux needle.toList hay.toList

/-- `re.search(r'(\d+)', text)` (line 59): the leftmost maximal run of digits,
if any. -/
def firstNumber : List Char → Option String
  | [] => none
  | c :: cs =>
      if c.isDigit then some (String.mk (c :: cs.takeWhile Char.isDigit))
      else firstNumber cs

/-- One `product-catalogue-training-calendar__row` div (lines 42-51): the text
of its `h4` heading and of its `p` paragraph, when each exists. -/
structure PageRow where
  h4 : Option String
  p : Option String
deriving DecidableEq

/-- A parsed detail page: the rows of the `product-catalogue` module when that
module is found (lines 37-45). -/
structure DetailPage where
  product_module : Option (List PageRow)
deriving DecidableEq

/-- Outcome of one `session.get` on a detail URL (lines 30-31): an exception
(transport error, timeout, `raise_for_status` on a bad status), or a parsed
page. -/
inductive FetchOutcome where
  | exn : FetchOutcome
  | page : DetailPage → FetchOutcome
deriving DecidableEq

/-- Lines 47-61: one module row updates the `(description, duration)`
accumulator; rows missing `h4` or `p` are skipped. -/
def extractRow (acc : String × String) (row : PageRow) : String × String :=
  match row.h4, row.p with
  | some h4, some p =>
      let title := pyLower h4
      let text := pyStrip p
      if containsSub "description" title then (text, acc.2)
      else if containsSub "assessment length" title || containsSub "duration" title then
        match firstNumber text.toList with
        | some num => (acc.1, num ++ " minutes")
        | none => acc
      else acc
  | _, _ => acc

/-- Lines 34-61: the extracted `(description, duration)` of a detail page,
starting from blank values. -/
def extractFields (pg : DetailPage) : String × String :=
  match pg.product_module with
  | none => ("", "")
  | some rows => rows.foldl extractRow ("", "")

/-- One row of the output table (`scrape_table`, lines 92-102). -/
structure Assessment where
  name : String
  url : String
  description : String
  duration : String
  test_type : String
  remote_testing : String
  adaptive_irt : String
deriving DecidableEq

/-- The retry loop of `fetch_assessment_details` (lines 28-71). `outcome k` is
the result of the attempt numbered `k` (numbered from 1); the second argument
counts the remaining iterations of `range(1, MAX_RETRIES + 1)`. Returns the
updated assessment, the number of attempts made, and the backoff sleeps taken
(`time.sleep(2 * attempt)` after each failed non-final attempt). -/
def fetchAux (outcome : Nat → FetchOutcome) (a : Assessment) (attempt : Nat) :
    Nat → Assessment × Nat × List Nat
  | 0 => (a, 0, [])
  | remaining + 1 =>
      match outcome attempt with
      | .page pg =>
          let fields := extractFields pg
          ({ a with description := fields.1, duration := fields.2 }, 1, [])
      | .exn =>
          if remaining = 0 then (a, 1, [])
          else
            let r := fetchAux outcome a (attempt + 1) remaining
            (r.1, r.2.1 + 1, (2 * attempt) :: r.2.2)

/-- `fetch_assessment_details` (lines 25-74). -/
def fetch_assessment_details (outcome : Nat → FetchOutcome) (a : Assessment) :
    Assessment × Nat × List Nat :=
  fetchAux outcome a 1 MAX_RETRIES

/-- One `tr` of a listing table as `scrape_table` (lines 79-104) reads it: the
number of `td` cells, the `(text, href)` of the anchor in the first cell when
present, presence of the `-yes` span in cells 1 and 2, and the texts of the
`product-catalogue__key` spans in cell 3. -/
structure TRow where
  ncols : Nat
  link : Option (String × String)
  yes1 : Bool
  yes2 : Bool
  keys : List String
deriving DecidableEq

/-- A `table` element: its `tr` rows, the first being the header row that
line 81 drops. -/
structure Table where
  rows : List TRow
deriving DecidableEq

/-- Lines 83-102: one `tr` to an output row; rows with fewer than 4 cells or
no anchor are skipped. -/
def rowToAssessment (row : TRow) : Option Assessment :=
  if row.ncols < 4 then none
  else match row.link with
    | none => none
    | some link =>
        some { name := pyStrip link.1
               url := "https://www.shl.com" ++ link.2
               description := ""
               duration := ""
               test_type := String.intercalate ", " (row.keys.map pyStrip)
               remote_testing := if row.yes1 then "Yes" else "No"
               adaptive_irt := if row.yes2 then "Yes" else "No" }

/-- `scrape_table` (lines 79-104). -/
def scrape_table (t : Table) : List Assessment :=
  (t.rows.drop 1).filterMap rowToAssessment

/-- A listing page response: its HTTP status and parsed `table` elements. -/
structure ListPage where
  status_code : Nat
  tables : List Table
deriving DecidableEq

/-- Outcome of one `session.get` on a listing URL (line 116): an exception, or
a response. -/
inductive ListFetch where
  | exn : ListFetch
  | page : ListPage → ListFetch
deriving DecidableEq

/-- The loop body conditions of `scrape_pages` all hold: status 200, at least
one table, and a non-empty scrape of the last table (lines 117-127). -/
def goodList (f : ListFetch) : Bool :=
  match f with
  | .exn => false
  | .page p =>
      if p.status_code ≠ 200 then false
      else match p.tables.getLast? with
        | none => false
        | some tbl => !(scrape_table tbl).isEmpty

/-- The loop of `scrape_pages` (lines 110-134). `fetchList k` is the response
for the page numbered `k`; the second argument counts the remaining iterations
of `range(max_pages)`. Returns the accumulated assessments and the requested
offsets (`start = page * 12`), one per issued `session.get`. -/
def scrapePagesAux (fetchList : Nat → ListFetch) :
    Nat → Nat → List Assessment × List Nat
  | _, 0 => ([], [])
  | page, remaining + 1 =>
      let start := page * 12
      match fetchList page with
      | .exn => ([], [start])
      | .page p =>
          if p.status_code ≠ 200 then ([], [start])
          else match p.tables.getLast? with
            | none => ([], [start])
            | some tbl =>
                let pas := scrape_table tbl
                if pas.isEmpty then ([], [start])
                else
                  let r := scrapePagesAux fetchList (page + 1) remaining
                  (pas ++ r.1, start :: r.2)

/-- `scrape_pages` (lines 107-136) with its default `max_pages=32`. -/
def scrape_pages (fetchList : Nat → ListFetch) (max_pages : Nat) :
    List Assessment × List Nat :=
  scrapePagesAux fetchList 0 max_pages

/-- Observable actions of the retrieval run: a detail fetch for the item at a
position, or a `to_csv` snapshot write. -/
inductive RunEvent where
  | fetch : Nat → RunEvent
  | persist : RunEvent
deriving DecidableEq

/-- `scrape` (lines 141-150): the list phase, then a detail fetch for every
listed item in order (`detailOutcome i` is the attempt oracle of item `i`);
the `i % 10 == 0` branch at lines 147-148 only prints progress. Returns the
final table and the fetch events. -/
def scrape (fetchList : Nat → ListFetch)
    (detailOutcome : Nat → Nat → FetchOutcome) : List Assessment × List RunEvent :=
  let seed := (scrape_pages fetchList 32).1
  (seed.mapIdx (fun i a => (fetch_assessment_details (detailOutcome i) a).1),
   (List.range seed.length).map RunEvent.fetch)

/-- The `__main__` entry (lines 158-160): one `scrape()` run followed by a
single `save_to_csv` (line 153-155). The prior content of the output file is
irrelevant to the program, which never reads it; it is threaded here only so
that independence from it can be stated. -/
def main_run (fetchList : Nat → ListFetch)
    (detailOutcome : Nat → Nat → FetchOutcome)
    (_priorSnapshot : Option (List Assessment)) : List Assessment × List RunEvent :=
  let r := scrape fetchList detailOutcome
  (r.1, r.2 ++ [RunEvent.persist])

/-! ## Helper lemmas: the list phase -/

lemma scrapePagesAux_succ (fetchList : Nat → ListFetch) (page rem : Nat) :
    scrapePagesAux fetchList page (rem + 1) =
      match fetchList page with
      | .exn => ([], [page * 12])
      | .page p =>
          if p.status_code ≠ 200 then ([], [page * 12])
          else match p.tables.getLast? with
            | none => ([], [page * 12])
            | some tbl =>
                if (scrape_table tbl).isEmpty then ([], [page * 12])
                else (scrape_table tbl ++ (scrapePagesAux fetchList (page + 1) rem).1,
                      page * 12 :: (scrapePagesAux fetchList (page + 1) rem).2) := rfl

lemma scrapePagesAux_not_good {fetchList : Nat → ListFetch} {page rem : Nat}
    (h : goodList (fetchList page) = false) :
    scrapePagesAux fetchList page (rem + 1) = ([], [page * 12]) := by
  rw [scrapePagesAux_succ]
  cases hf : fetchList page with
  | exn => rfl
  | page p =>
      simp only [goodList, hf] at h
      simp only []
      by_cases hst : p.status_code ≠ 200
      · simp only [if_pos hst]
      · simp only [if_neg hst] at h ⊢
        cases ht : p.tables.getLast? with
        | none => simp only [ht]
        | some tbl =>
            simp only [ht] at h ⊢
            have hemp : (scrape_table tbl).isEmpty = true := by
              cases hv : (scrape_table tbl).isEmpty with
              | false => rw [hv] at h; exact Bool.noConfusion h
              | true => rfl
            simp only [hemp, if_pos]

lemma scrapePagesAux_good {fetchList : Nat → ListFetch} {page rem : Nat}
    (h : goodList (fetchList page) = true) :
    ∃ tbl, (scrape_table tbl).isEmpty = false ∧
      scrapePagesAux fetchList page (rem + 1) =
        (scrape_table tbl ++ (scrapePagesAux fetchList (page + 1) rem).1,
          page * 12 :: (scrapePagesAux fetchList (page + 1) rem).2) := by
  rw [scrapePagesAux_succ]
  cases hf : fetchList page with
  | exn => simp [goodList, hf] at h
  | page p =>
      simp only [goodList, hf] at h
      simp only []
      by_cases hst : p.status_code ≠ 200
      · rw [if_pos hst] at h
        exact Bool.noConfusion h
      · rw [if_neg hst] at h
        simp only [if_neg hst]
        cases ht : p.tables.getLast? with
        | none =>
            simp only [ht] at h
            exact Bool.noConfusion h
        | some tbl =>
            simp only [ht] at h
            simp only [ht]
            have hemp : (scrape_table tbl).isEmpty = false := by
              cases hv : (scrape_table tbl).isEmpty with
              | true => rw [hv] at h; exact Bool.noConfusion h
              | false => rfl
            exact ⟨tbl, hemp, by simp only [hemp, Bool.false_eq_true, if_false]⟩

lemma scrapePagesAux_starts (fetchList : Nat → ListFetch) :
    ∀ (rem page : Nat), ∃ m, m ≤ rem ∧
      (scrapePagesAux fetchList page rem).2 =
        (List.range m).map (fun j => (page + j) * 12) ∧
      ((∀ k, goodList (fetchList k) = true) → m = rem) := by
  intro rem
  induction rem with
  | zero =>
      intro page
      exact ⟨0, le_rfl, by simp [scrapePagesAux], fun _ => rfl⟩
  | succ rem ih =>
      intro page
      by_cases hg : goodList (fetchList page) = true
      · obtain ⟨tbl, hne, heq⟩ := @scrapePagesAux_good fetchList page rem hg
        obtain ⟨m, hm, hst, hall⟩ := ih (page + 1)
        refine ⟨m + 1, by omega, ?_, fun h2 => by rw [hall h2]⟩
        rw [heq]
        show page * 12 :: (scrapePagesAux fetchList (page + 1) rem).2 = _
        rw [hst, List.range_succ_eq_map, List.map_cons, List.map_map]
        congr 1
        apply List.map_congr_left
        intro j _
        simp only [Function.comp_apply]
        congr 1
        omega
      · have hg2 : goodList (fetchList page) = false := by
          revert hg
          cases goodList (fetchList page) <;> simp
        refine ⟨1, by omega, ?_, fun h2 => absurd (h2 page) (by simp [hg2])⟩
        rw [scrapePagesAux_not_good hg2]
        rfl

lemma scrape_table_blank (t : Table) :
    ∀ a ∈ scrape_table t, a.description = "" ∧ a.duration = "" := by
  intro a ha
  unfold scrape_table at ha
  rw [List.mem_filterMap] at ha
  obtain ⟨row, _, hrow⟩ := ha
  unfold rowToAssessment at hrow
  by_cases hc : row.ncols < 4
  · rw [if_pos hc] at hrow
    exact Option.noConfusion hrow
  · rw [if_neg hc] at hrow
    cases hl : row.link with
    | none =>
        rw [hl] at hrow
        exact Option.noConfusion hrow
    | some link =>
        rw [hl] at hrow
        have h2 := Option.some.inj hrow
        rw [← h2]
        exact ⟨rfl, rfl⟩

lemma scrapePagesAux_blank (fetchList : Nat → ListFetch) :
    ∀ (rem page : Nat), ∀ a ∈ (scrapePagesAux fetchList page rem).1,
      a.description = "" ∧ a.duration = "" := by
  intro rem
  induction rem with
  | zero =>
      intro page a ha
      simp [scrapePagesAux] at ha
  | succ rem ih =>
      intro page a ha
      by_cases hg : goodList (fetchList page) = true
      · obtain ⟨tbl, hne, heq⟩ := @scrapePagesAux_good fetchList page rem hg
        rw [heq] at ha
        have ha2 : a ∈ scrape_table tbl ++
            (scrapePagesAux fetchList (page + 1) rem).1 := ha
        rcases List.mem_append.mp ha2 with h | h
        · exact scrape_table_blank tbl a h
        · exact ih (page + 1) a h
      · have hg2 : goodList (fetchList page) = false := by
          revert hg
          cases goodList (fetchList page) <;> simp
        rw [scrapePagesAux_not_good hg2] at ha
        simp at ha

/-! ## Helper lemmas: the detail-fetch retry loop -/

lemma fetchAux_all_exn (outcome : Nat → FetchOutcome) (a : Assessment)
    (h : ∀ n, outcome n = .exn) :
    ∀ (rem attempt : Nat), 0 < rem →
      fetchAux outcome a attempt rem =
        (a, rem, (List.range (rem - 1)).map (fun j => 2 * (attempt + j))) := by
  intro rem
  induction rem with
  | zero => intro attempt h0; omega
  | succ rem ih =>
      intro attempt h0
      show fetchAux outcome a attempt (rem + 1) = _
      unfold fetchAux
      rw [h attempt]
      by_cases hr : rem = 0
      · subst hr
        simp
      · rw [if_neg hr]
        obtain ⟨k, rfl⟩ := Nat.exists_eq_succ_of_ne_zero hr
        rw [ih (attempt + 1) (by omega)]
        show (a, (k + 1) + 1, 2 * attempt ::
            (List.range (k + 1 - 1)).map (fun j => 2 * ((attempt + 1) + j))) = _
        rw [Nat.add_sub_cancel, Nat.add_sub_cancel]
        refine congrArg _ (congrArg _ ?_)
        rw [List.range_succ_eq_map, List.map_cons, List.map_map]
        congr 1
        apply List.map_congr_left
        intro j _
        simp only [Function.comp_apply]
        congr 1
        omega

/-! ## Concrete fixtures for witnesses and counterexamples -/

/-- A row with every enrichment cell blank. -/
def sampleBlankRecord : Record :=
  { name := "Verify G+", description := "Cognitive ability test"
    skills_covered := some "", skill_domains := some ""
    assessment_category := some "", job_roles := some ""
    seniority_levels := some "", assessment_focus := some ""
    keywords := some "" }

/-- A row whose `skills_covered` and `assessment_category` cells are filled
but whose `keywords` cell is blank. -/
def samplePartialRecord : Record :=
  { name := "Java Test", description := "Java coding test"
    skills_covered := some "[\"Java\"]", skill_domains := some "[\"Tech\"]"
    assessment_category := some "Technical", job_roles := some "[]"
    seniority_levels := some "[]", assessment_focus := some "Coding"
    keywords := some "" }

/-- A row with every enrichment cell non-blank. -/
def sampleDoneRecord : Record :=
  { name := "OPQ", description := "Personality questionnaire"
    skills_covered := some "[\"Teamwork\"]", skill_domains := some "[\"HR\"]"
    assessment_category := some "Behavioral", job_roles := some "[\"Manager\"]"
    seniority_levels := some "[\"Senior\"]", assessment_focus := some "Behavior"
    keywords := some "[\"OPQ\"]" }

/-- A dict item with an out-of-vocabulary category and a present-but-malformed
(integer-valued) `skills_covered`; every other key is absent. -/
def sampleMalformedItem : MetaItem :=
  { skills_covered := some (JsonVal.num 5), skill_domains := none
    assessment_category := some (JsonVal.str "Banana"), job_roles := none
    seniority_levels := none, assessment_focus := none, keywords := none }

/-! ## Claim theorems -/

/-- Following the spec's words exactly, used to compare against the source's
`is_row_enriched`: true iff all seven required enrichment fields are
non-blank. -/
def specEnrichedAllFields (row : Record) : Bool :=
  nonblank row.skills_covered && nonblank row.skill_domains &&
  nonblank row.assessment_category && nonblank row.job_roles &&
  nonblank row.seniority_levels && nonblank row.assessment_focus &&
  nonblank row.keywords

/-- C2: counterexample. A row whose `skills_covered` and `assessment_category`
are non-blank but whose `keywords` cell is blank is classified as enriched by
the code, refuting `isEnriched(record)` iff all seven required fields are
non-blank. -/
theorem is_row_enriched_not_all_fields :
    is_row_enriched samplePartialRecord = true ∧
    specEnrichedAllFields samplePartialRecord = false ∧
    nonblank samplePartialRecord.keywords = false := by decide

/-- C2 (amended): the code classifies a row as enriched iff its
`skills_covered` and `assessment_category` cells alone are non-blank, and a
position is pending iff its row exists and is not so classified. -/
theorem is_row_enriched_iff :
    (∀ row : Record, is_row_enriched row = true ↔
      (nonblank row.skills_covered = true ∧
        nonblank row.assessment_category = true)) ∧
    (∀ (df : List Record) (i : Nat), i ∈ pending_indices df ↔
      ∃ row, df[i]? = some row ∧ is_row_enriched row = false) := by
  constructor
  · intro row
    unfold is_row_enriched
    rw [Bool.and_eq_true]
  · intro df i
    exact mem_pending_indices

/-- C3: counterexample. A present-but-malformed `skills_covered` (the number
5) is stored coerced (`json.dumps`-ed to `"5"`), not replaced by the empty
default `"[]"`; an out-of-vocabulary `assessment_category` is stored
verbatim, not replaced by the empty default; and a correct-length batch
containing a non-dict item does fail — nothing is persisted, while the items
applied before the raise stay written in the in-memory table. -/
theorem llm_response_coercion_counterexample :
    (applyMeta sampleBlankRecord sampleMalformedItem).skills_covered =
      some "5" ∧
    (applyMeta sampleBlankRecord sampleMalformedItem).skills_covered ≠
      some (jsonDumpsVal (JsonVal.arr [])) ∧
    (applyMeta sampleBlankRecord sampleMalformedItem).assessment_category =
      some "Banana" ∧
    ("Banana" ∈ ALLOWED_CATEGORIES → False) ∧
    (applyMeta sampleBlankRecord sampleMalformedItem).assessment_category ≠
      some "" ∧
    (processBatch [sampleBlankRecord, sampleBlankRecord] [0, 1]
        (.ok [.dict sampleMalformedItem, .nonDict JsonVal.null])).2 = none ∧
    (processBatch [sampleBlankRecord, sampleBlankRecord] [0, 1]
        (.ok [.dict sampleMalformedItem, .nonDict JsonVal.null])).1 ≠
      [sampleBlankRecord, sampleBlankRecord] := by decide

/-- C3 (amended): in a correct-length parsed batch, a field absent from a
dict item is replaced by its empty default (`json.dumps` of the empty list,
or the empty string); a field present with any value — malformed included —
is stored coerced (`json.dumps`-ed for the list-expected fields, verbatim for
the string fields, with no vocabulary validation of `assessment_category`);
a batch whose items are all dicts is applied in full and persisted, while a
batch containing a non-dict item fails as a whole and is not persisted. -/
theorem applyMeta_amended (row : Record) (m : MetaItem) :
    (m.skills_covered = none →
      (applyMeta row m).skills_covered = some (jsonDumpsVal (JsonVal.arr []))) ∧
    (m.job_roles = none →
      (applyMeta row m).job_roles = some (jsonDumpsVal (JsonVal.arr []))) ∧
    (m.keywords = none →
      (applyMeta row m).keywords = some (jsonDumpsVal (JsonVal.arr []))) ∧
    (m.assessment_category = none →
      (applyMeta row m).assessment_category = some "") ∧
    (m.assessment_focus = none →
      (applyMeta row m).assessment_focus = some "") ∧
    (∀ v, m.skills_covered = some v →
      (applyMeta row m).skills_covered = some (jsonDumpsVal v)) ∧
    (∀ v, m.assessment_category = some v →
      (applyMeta row m).assessment_category = storeCell v) ∧
    (∀ (df : List Record) (idxs : List Nat) (ms : List MetaItem),
      ms.length = idxs.length →
      processBatch df idxs (.ok (ms.map ResponseItem.dict)) =
        (applyBatch df idxs ms, some (applyBatch df idxs ms))) ∧
    (∀ (df : List Record) (idxs : List Nat) (pre : List MetaItem)
        (v : JsonVal) (post : List ResponseItem),
      (pre.map ResponseItem.dict ++ ResponseItem.nonDict v :: post).length =
        idxs.length →
      (processBatch df idxs
        (.ok (pre.map ResponseItem.dict ++
          ResponseItem.nonDict v :: post))).2 = none) := by
  refine ⟨?_, ?_, ?_, ?_, ?_, ?_, ?_, ?_, ?_⟩
  · intro h; simp [applyMeta, h]
  · intro h; simp [applyMeta, h]
  · intro h; simp [applyMeta, h]
  · intro h; simp [applyMeta, h, storeCell]
  · intro h; simp [applyMeta, h, storeCell]
  · intro v h; simp [applyMeta, h]
  · intro v h; simp [applyMeta, h]
  · intro df idxs ms h
    simp only [processBatch]
    rw [if_pos (by rw [List.length_map]; exact h)]
    rw [applyLoop_dicts ms idxs df]
  · intro df idxs pre v post h
    simp only [processBatch]
    rw [if_pos h]
    have h2 := applyLoop_nonDict_false pre idxs df v post h.symm
    rcases hres : applyLoop df (idxs.zip
      (pre.map ResponseItem.dict ++ ResponseItem.nonDict v :: post)) with ⟨df2, flag⟩
    rw [hres] at h2
    have hflag : flag = false := h2
    subst hflag
    rfl

/-- C4: for a positive batch size `B`, `chunk_list` yields `ceil(M / B)`
groups whose concatenation is the input in order; every group except possibly
the last has length `B`, the last has length `M mod B` (or `B` when `B`
divides `M`), and the empty input yields zero groups. -/
theorem chunk_list_spec (l : List Nat) (B : Nat) (hB : 0 < B) :
    (chunk_list l B).length = (l.length + B - 1) / B ∧
    (chunk_list l B).flatten = l ∧
    (∀ g ∈ (chunk_list l B).dropLast, g.length = B) ∧
    (∀ g ∈ (chunk_list l B).getLast?,
        g.length = if l.length % B = 0 then B else l.length % B) ∧
    chunk_list ([] : List Nat) B = [] :=
  ⟨chunk_list_length l B hB, chunk_list_flatten l B hB,
   chunk_list_dropLast l B hB, chunk_list_getLast l B hB, chunk_list_nil B⟩

/-- C4: witness at the input `[3, 1, 4, 1, 5]` with batch size 2. -/
theorem chunk_list_spec_witness :
    (chunk_list [3, 1, 4, 1, 5] 2).length =
      (([3, 1, 4, 1, 5] : List Nat).length + 2 - 1) / 2 ∧
    (chunk_list [3, 1, 4, 1, 5] 2).flatten = [3, 1, 4, 1, 5] ∧
    (∀ g ∈ (chunk_list [3, 1, 4, 1, 5] 2).dropLast, g.length = 2) ∧
    (∀ g ∈ (chunk_list [3, 1, 4, 1, 5] 2).getLast?,
        g.length = if ([3, 1, 4, 1, 5] : List Nat).length % 2 = 0 then 2
          else ([3, 1, 4, 1, 5] : List Nat).length % 2) ∧
    chunk_list ([] : List Nat) 2 = [] :=
  chunk_list_spec [3, 1, 4, 1, 5] 2 (by decide)

/-- C6: on a store where every row is already enriched the run dispatches zero
batches, performs no persist call, and leaves the table unchanged (so the
snapshot on disk is untouched). -/
theorem enrich_idempotent (df : List Record) (responses : Nat → LLMResult)
    (h : ∀ row ∈ df, is_row_enriched row = true) :
    (enrich_catalog_data df responses).batches_done = 0 ∧
    (enrich_catalog_data df responses).persists = [] ∧
    (enrich_catalog_data df responses).df = df := by
  unfold enrich_catalog_data
  rw [pending_indices_eq_nil h, chunk_list_nil]
  exact ⟨rfl, rfl, rfl⟩

/-- C6: witness on a one-row fully enriched store. -/
theorem enrich_idempotent_witness :
    (enrich_catalog_data [sampleDoneRecord]
        (fun _ => LLMResult.err)).batches_done = 0 ∧
    (enrich_catalog_data [sampleDoneRecord]
        (fun _ => LLMResult.err)).persists = [] ∧
    (enrich_catalog_data [sampleDoneRecord]
        (fun _ => LLMResult.err)).df = [sampleDoneRecord] :=
  enrich_idempotent [sampleDoneRecord] (fun _ => LLMResult.err) (by decide)

/-- C9: the pending sequence is chunked once before the loop: the loop always
runs exactly `ceil(M / B)` batches whatever the responses, and any identifier
occurs in at most one dispatched batch. -/
theorem single_dispatch_per_run (df : List Record) (responses : Nat → LLMResult) :
    (enrich_catalog_data df responses).batches_done =
      ((pending_indices df).length + BATCH_SIZE - 1) / BATCH_SIZE ∧
    ∀ idx : Nat,
      (chunk_list (pending_indices df) BATCH_SIZE).countP
        (fun b => decide (idx ∈ b)) ≤ 1 := by
  constructor
  · unfold enrich_catalog_data
    rw [runLoop_batches_done]
    rw [chunk_list_length _ _ (by decide)]
    show 0 + _ = _
    omega
  · intro idx
    exact countP_mem_le_one idx _
      (chunk_list_pairwise_disjoint _ _ (by decide) (pending_indices_nodup df))

lemma pauseAt_cooldown_iff (k : Nat) :
    pauseAt k = Pause.cooldown ↔ (k + 1) % COOLDOWN_EVERY = 0 := by
  unfold pauseAt
  by_cases h : (k + 1) % COOLDOWN_EVERY = 0
  · simp [h]
  · simp [h]

/-- C5: the batch counter is stepped after every batch, successful or not
(one pause is recorded per dispatched batch), and the pause after the batch
numbered `j + 1` (1-based) is the long cooldown exactly when `j + 1` is a
multiple of `COOLDOWN_EVERY = 10` — so batches 10, 20, 30, ... cool down. -/
theorem cooldown_cadence (df : List Record) (responses : Nat → LLMResult)
    (j : Nat) (hj : j < (enrich_catalog_data df responses).pauses.length) :
    (enrich_catalog_data df responses).pauses.length =
      (enrich_catalog_data df responses).batches_done ∧
    COOLDOWN_EVERY = 10 ∧
    ((enrich_catalog_data df responses).pauses[j] = Pause.cooldown ↔
      (j + 1) % COOLDOWN_EVERY = 0) := by
  have hpauses := runLoop_pauses responses
    (chunk_list (pending_indices df) BATCH_SIZE)
    { df := df, persists := [], pauses := [], batches_done := 0 }
  have hdone := runLoop_batches_done responses
    (chunk_list (pending_indices df) BATCH_SIZE)
    { df := df, persists := [], pauses := [], batches_done := 0 }
  refine ⟨?_, rfl, ?_⟩
  · show (enrich_catalog_data df responses).pauses.length = _
    unfold enrich_catalog_data at hpauses hdone ⊢
    rw [hpauses, hdone]
    simp
  · have hj2 := hj
    unfold enrich_catalog_data at hj2
    rw [hpauses] at hj2
    simp only [List.nil_append, List.length_map, List.length_range] at hj2
    have hopt : (enrich_catalog_data df responses).pauses[j]? =
        some (pauseAt j) := by
      unfold enrich_catalog_data
      rw [hpauses]
      simp only [List.nil_append]
      rw [List.getElem?_map, List.getElem?_range hj2]
      show some (pauseAt (0 + j)) = some (pauseAt j)
      rw [Nat.zero_add]
    have hval : (enrich_catalog_data df responses).pauses[j] = pauseAt j := by
      have h2 := List.getElem?_eq_getElem hj
      rw [hopt] at h2
      exact (Option.some.inj h2).symm
    rw [hval]
    exact pauseAt_cooldown_iff j

/-- C5: witness on a one-row store whose single batch fails. -/
theorem cooldown_cadence_witness :
    (enrich_catalog_data [sampleBlankRecord]
        (fun _ => LLMResult.err)).pauses.length =
      (enrich_catalog_data [sampleBlankRecord]
        (fun _ => LLMResult.err)).batches_done ∧
    COOLDOWN_EVERY = 10 ∧
    ((enrich_catalog_data [sampleBlankRecord]
        (fun _ => LLMResult.err)).pauses.get ⟨0, by decide⟩ = Pause.cooldown ↔
      (0 + 1) % COOLDOWN_EVERY = 0) :=
  cooldown_cadence [sampleBlankRecord] (fun _ => LLMResult.err) 0 (by decide)

/-- C1: a batch whose network call errors, whose response fails to parse, or
whose parsed response has the wrong item count leaves every record of that
batch untouched and still pending, writes no snapshot for that batch, and the
loop still processes all the batches. -/
theorem failed_batch_isolated (df : List Record) (responses : Nat → LLMResult)
    (k : Nat) (hk : k < (chunk_list (pending_indices df) BATCH_SIZE).length)
    (hfail : failsOn (responses k)
      ((chunk_list (pending_indices df) BATCH_SIZE)[k])) :
    (∀ idx ∈ (chunk_list (pending_indices df) BATCH_SIZE)[k],
        (enrich_catalog_data df responses).df[idx]? = df[idx]? ∧
        ∃ row, (enrich_catalog_data df responses).df[idx]? = some row ∧
          is_row_enriched row = false) ∧
    (∀ p ∈ (enrich_catalog_data df responses).persists, p.1 ≠ k) ∧
    (enrich_catalog_data df responses).batches_done =
      (chunk_list (pending_indices df) BATCH_SIZE).length := by
  have hdisj := chunk_list_pairwise_disjoint (pending_indices df) BATCH_SIZE
    (by decide) (pending_indices_nodup df)
  have hflat := chunk_list_flatten (pending_indices df) BATCH_SIZE (by decide)
  have huniq : ∀ idx, idx ∈ (chunk_list (pending_indices df) BATCH_SIZE)[k] →
      ∀ (j : Nat) (hj : j < (chunk_list (pending_indices df) BATCH_SIZE).length),
        idx ∈ (chunk_list (pending_indices df) BATCH_SIZE)[j] → j = k := by
    intro idx hmemk j hj hmemj
    by_contra hne
    have hpg := List.pairwise_iff_getElem.mp hdisj
    rcases Nat.lt_or_ge j k with hlt | hge
    · exact hpg j k hj hk hlt hmemj hmemk
    · have hlt2 : k < j := by omega
      exact hpg k j hk hj hlt2 hmemk hmemj
  refine ⟨?_, ?_, ?_⟩
  · intro idx hmem
    have hpend : idx ∈ pending_indices df := by
      rw [← hflat]
      exact List.mem_flatten_of_mem (List.getElem_mem hk) hmem
    obtain ⟨row, hrow, hen⟩ := mem_pending_indices.mp hpend
    have hpres : (enrich_catalog_data df responses).df[idx]? = df[idx]? := by
      unfold enrich_catalog_data
      rw [runLoop_df_getElem? responses idx _ _ ?_]
      intro j hj hmemj
      have hjk := huniq idx hmem j hj hmemj
      subst hjk
      show failsOn (responses (0 + j)) _
      rw [Nat.zero_add]
      exact hfail
    exact ⟨hpres, row, by rw [hpres]; exact hrow, hen⟩
  · intro p hp
    intro hpk
    have hmem := runLoop_persists_mem responses
      (chunk_list (pending_indices df) BATCH_SIZE)
      { df := df, persists := [], pauses := [], batches_done := 0 } p hp
    rcases hmem with h | ⟨j, hj, hnum, data, hresp, hlen⟩
    · simp at h
    · rw [hpk] at hnum
      have hnum2 : k = 0 + j := hnum
      have hjk : j = k := by omega
      subst hjk
      rw [Nat.zero_add] at hresp
      rcases hfail with h | ⟨data2, hd2, hlen2⟩
      · rw [h] at hresp
        exact LLMResult.noConfusion hresp
      · rw [hd2] at hresp
        have hde : data2 = data := LLMResult.ok.inj hresp
        subst hde
        exact hlen2 hlen
  · unfold enrich_catalog_data
    rw [runLoop_batches_done]
    show 0 + _ = _
    omega

/-- C1: witness on a one-row store whose single batch errors. -/
theorem failed_batch_isolated_witness :
    (∀ idx ∈ (chunk_list (pending_indices [sampleBlankRecord]) BATCH_SIZE).get ⟨0, by decide⟩,
        (enrich_catalog_data [sampleBlankRecord]
          (fun _ => LLMResult.err)).df[idx]? = [sampleBlankRecord][idx]? ∧
        ∃ row, (enrich_catalog_data [sampleBlankRecord]
            (fun _ => LLMResult.err)).df[idx]? = some row ∧
          is_row_enriched row = false) ∧
    (∀ p ∈ (enrich_catalog_data [sampleBlankRecord]
        (fun _ => LLMResult.err)).persists, p.1 ≠ 0) ∧
    (enrich_catalog_data [sampleBlankRecord]
        (fun _ => LLMResult.err)).batches_done =
      (chunk_list (pending_indices [sampleBlankRecord]) BATCH_SIZE).length :=
  failed_batch_isolated [sampleBlankRecord] (fun _ => LLMResult.err) 0
    (by decide) (Or.inl rfl)

/-- C10: the list phase issues at most `max_pages = 32` requests, at offsets
`0, 12, 24, ...` in increasing order, whatever the server returns; and when
every page is a success with a non-empty well-formed table, it still stops,
after exactly 32 requests. -/
theorem scrape_pages_bounded (fetchList : Nat → ListFetch) :
    (scrape_pages fetchList 32).2.length ≤ 32 ∧
    (∀ (i : Nat) (hi : i < (scrape_pages fetchList 32).2.length),
        (scrape_pages fetchList 32).2[i] = i * 12) ∧
    ((∀ k, goodList (fetchList k) = true) →
      (scrape_pages fetchList 32).2.length = 32) := by
  obtain ⟨m, hm, heq, hall⟩ := scrapePagesAux_starts fetchList 32 0
  have he2 : (scrape_pages fetchList 32).2 =
      (List.range m).map (fun j => (0 + j) * 12) := heq
  refine ⟨?_, ?_, ?_⟩
  · rw [he2]
    simp only [List.length_map, List.length_range]
    exact hm
  · intro i hi
    rw [List.getElem_of_eq he2 hi, List.getElem_map, List.getElem_range]
    omega
  · intro h2
    rw [he2]
    simp only [List.length_map, List.length_range]
    exact hall h2

/-- A seed row for the detail phase, as produced by the list phase. -/
def sampleAssessment : Assessment :=
  { name := "Verify Numerical", url := "https://www.shl.com/products/verify/"
    description := "", duration := "", test_type := "A, B"
    remote_testing := "Yes", adaptive_irt := "No" }

/-- C8: a detail fetch whose every attempt raises is attempted exactly
`MAX_RETRIES = 3` times, sleeping the increasing backoffs `[2, 4]` between
attempts, and returns the assessment untouched (its target fields stay blank,
every seed row having blank fields); the detail loop still yields one output
row per listed item, so the run never aborts on a per-item failure. -/
theorem detail_retry_bound (outcome : Nat → FetchOutcome) (a : Assessment)
    (h : ∀ n, outcome n = .exn) :
    fetch_assessment_details outcome a = (a, MAX_RETRIES, [2, 4]) ∧
    List.Chain' (· < ·) (fetch_assessment_details outcome a).2.2 ∧
    (∀ (fetchList : Nat → ListFetch) (det : Nat → Nat → FetchOutcome),
        (scrape fetchList det).1.length = (scrape_pages fetchList 32).1.length) ∧
    (∀ fetchList : Nat → ListFetch,
        ∀ a2 ∈ (scrape_pages fetchList 32).1,
          a2.description = "" ∧ a2.duration = "") := by
  have h1 : fetch_assessment_details outcome a = (a, MAX_RETRIES, [2, 4]) := by
    show fetchAux outcome a 1 MAX_RETRIES = _
    rw [fetchAux_all_exn outcome a h MAX_RETRIES 1 (by decide)]
    rfl
  refine ⟨h1, ?_, ?_, ?_⟩
  · rw [h1]
    show List.Chain' (· < ·) ([2, 4] : List Nat)
    exact List.chain'_cons.mpr ⟨by omega, List.chain'_singleton 4⟩
  · intro fetchList det
    show ((scrape_pages fetchList 32).1.mapIdx _).length = _
    rw [List.length_mapIdx]
  · intro fetchList
    exact scrapePagesAux_blank fetchList 32 0

/-- C8: witness with an always-raising fetch oracle. -/
theorem detail_retry_bound_witness :
    fetch_assessment_details (fun _ => FetchOutcome.exn) sampleAssessment =
      (sampleAssessment, MAX_RETRIES, [2, 4]) ∧
    List.Chain' (· < ·)
      (fetch_assessment_details (fun _ => FetchOutcome.exn) sampleAssessment).2.2 ∧
    (∀ (fetchList : Nat → ListFetch) (det : Nat → Nat → FetchOutcome),
        (scrape fetchList det).1.length = (scrape_pages fetchList 32).1.length) ∧
    (∀ fetchList : Nat → ListFetch,
        ∀ a2 ∈ (scrape_pages fetchList 32).1,
          a2.description = "" ∧ a2.duration = "") :=
  detail_retry_bound (fun _ => FetchOutcome.exn) sampleAssessment (fun _ => rfl)

/-- A listing-table row with a product link, as the list phase parses it. -/
def cexTRow (nm : String) : TRow :=
  { ncols := 4, link := some (nm, "/products/item/"), yes1 := true
    yes2 := false, keys := ["K"] }

/-- A listing table: one header row and two product rows. -/
def cexTable : Table :=
  { rows := [ { ncols := 0, link := none, yes1 := false, yes2 := false
                keys := [] },
              cexTRow "Alpha", cexTRow "Beta" ] }

/-- A listing oracle: page 0 succeeds with two products, page 1 has no table,
so the list phase stops with the seed `[Alpha, Beta]`. -/
def cexListFetch : Nat → ListFetch :=
  fun k => if k = 0 then ListFetch.page { status_code := 200, tables := [cexTable] }
           else ListFetch.page { status_code := 200, tables := [] }

/-- A prior output snapshot in which every item is already done: both target
fields non-blank. -/
def cexPrior : List Assessment :=
  [ { name := "Alpha", url := "https://www.shl.com/products/item/"
      description := "Already scraped", duration := "10 minutes"
      test_type := "K", remote_testing := "Yes", adaptive_irt := "No" },
    { name := "Beta", url := "https://www.shl.com/products/item/"
      description := "Already scraped", duration := "12 minutes"
      test_type := "K", remote_testing := "Yes", adaptive_irt := "No" } ]

/-- C7: counterexample. With a prior snapshot whose every item has a
non-blank target field, the run still detail-fetches every listed item
(nothing is skipped), behaves identically without the snapshot, and persists
exactly once — at completion, with no periodic snapshot among the processed
items. -/
theorem retrieval_no_resume_counterexample :
    (∀ a ∈ cexPrior, (pyStrip a.description).toList.isEmpty = false) ∧
    (main_run cexListFetch (fun _ _ => FetchOutcome.exn) (some cexPrior)).2 =
      [RunEvent.fetch 0, RunEvent.fetch 1, RunEvent.persist] ∧
    main_run cexListFetch (fun _ _ => FetchOutcome.exn) (some cexPrior) =
      main_run cexListFetch (fun _ _ => FetchOutcome.exn) none := by decide

/-- C7 (amended): the Retrieval Coordinator never reads a prior snapshot: its
run is independent of one, it detail-fetches every listed item in order, and
it persists exactly one snapshot, at completion. -/
theorem retrieval_run_shape (fetchList : Nat → ListFetch)
    (det : Nat → Nat → FetchOutcome) (prior : Option (List Assessment)) :
    main_run fetchList det prior = main_run fetchList det none ∧
    (main_run fetchList det prior).2 =
      (List.range (scrape_pages fetchList 32).1.length).map RunEvent.fetch ++
        [RunEvent.persist] ∧
    (main_run fetchList det prior).2.countP
      (fun e => decide (e = RunEvent.persist)) = 1 := by
  refine ⟨rfl, rfl, ?_⟩
  show (((List.range (scrape_pages fetchList 32).1.length).map RunEvent.fetch) ++
      [RunEvent.persist]).countP (fun e => decide (e = RunEvent.persist)) = 1
  rw [List.countP_append]
  have h1 : ((List.range (scrape_pages fetchList 32).1.length).map
      RunEvent.fetch).countP (fun e => decide (e = RunEvent.persist)) = 0 := by
    rw [List.countP_eq_zero]
    intro e he
    rw [List.mem_map] at he
    obtain ⟨i, _, rfl⟩ := he
    simp
  rw [h1]
  simp

end SHL
